import Mathlib

/-!
Verification of the softmax classifier loss/gradient functions
(`Assignment1/classifiers/softmax.py`) and of the three-layer convolutional
network (`Assignment2/daseCV/classifiers/cnn.py`).

Real-valued numpy tensors are modelled as functions out of `Fin` index types
and floating-point arithmetic as exact real arithmetic.  A weight matrix of
shape (D, C) becomes `Fin D → Fin C → ℝ`, a data batch of shape (N, D)
becomes `Fin N → Fin D → ℝ`, and the label vector `y` becomes
`Fin N → Fin C` (so every label is a valid class index, as the docstring of
`softmax_loss_naive` requires).
-/

namespace SoftmaxA1

/-- Embeds `scores = X[i].dot(W)`: the raw class-score row of one sample
(`softmax.py`, line 40).  Entry `j` is `∑ k, X[i][k] * W[k][j]`. -/
noncomputable def scoresOf {D C : ℕ} (W : Fin D → Fin C → ℝ) (Xi : Fin D → ℝ) :
    Fin C → ℝ :=
  fun j => ∑ k, Xi k * W k j

/-- Embeds `np.max(scores)` over one score row (`softmax.py`, line 41). -/
noncomputable def rowMax {C : ℕ} [NeZero C] (s : Fin C → ℝ) : ℝ :=
  Finset.univ.sup' Finset.univ_nonempty s

/-- The per-row softmax both implementations compute: subtract the row
maximum, exponentiate, normalize (`softmax.py`, lines 41–42, resp. the rows
of lines 86–87). -/
noncomputable def softmaxOf {C : ℕ} [NeZero C] (s : Fin C → ℝ) (j : Fin C) : ℝ :=
  Real.exp (s j - rowMax s) / ∑ k, Real.exp (s k - rowMax s)

/-- Embeds `softmax_loss_naive(W, X, y, reg)` (`softmax.py`, lines 6–62).
The `for i` loop accumulates `-log(softmax[y[i]])` into `loss` and, for each
class `j`, `(softmax[j] - 1) * X[i]` (true class) or `softmax[j] * X[i]`
(other classes) into column `j` of `dW`; afterwards both are divided by
`num_train` and the regularization terms `0.5 * reg * np.sum(W * W)` and
`reg * W` are added. -/
noncomputable def softmax_loss_naive {D C N : ℕ} [NeZero C]
    (W : Fin D → Fin C → ℝ) (X : Fin N → Fin D → ℝ) (y : Fin N → Fin C)
    (reg : ℝ) : ℝ × (Fin D → Fin C → ℝ) :=
  let loss : ℝ :=
    (∑ i, -Real.log (softmaxOf (scoresOf W (X i)) (y i))) / (N : ℝ)
      + 0.5 * reg * ∑ k, ∑ j, W k j * W k j
  let dW : Fin D → Fin C → ℝ := fun k j =>
    (∑ i, if j = y i then (softmaxOf (scoresOf W (X i)) j - 1) * X i k
          else softmaxOf (scoresOf W (X i)) j * X i k) / (N : ℝ)
      + reg * W k j
  (loss, dW)

/-- Embeds `scores = X.dot(W)`: the full score matrix of the vectorized
implementation (`softmax.py`, line 85). -/
noncomputable def scoresMat {D C N : ℕ} (X : Fin N → Fin D → ℝ)
    (W : Fin D → Fin C → ℝ) : Fin N → Fin C → ℝ :=
  fun i j => ∑ k, X i k * W k j

/-- The softmax matrix of the vectorized implementation: per-row max
subtraction (`axis = 1`), exponentiation and per-row normalization
(`softmax.py`, lines 86–87). -/
noncomputable def softmaxMat {D C N : ℕ} [NeZero C] (X : Fin N → Fin D → ℝ)
    (W : Fin D → Fin C → ℝ) : Fin N → Fin C → ℝ :=
  fun i j => softmaxOf (scoresMat X W i) j

/-- Embeds `softmax_loss_vectorized(W, X, y, reg)` (`softmax.py`, lines 65–100).
`loss -= np.sum(np.log(softmax[range(num_train), y]))`, divided by
`num_train`, plus the regularization term; `softmax[range(num_train), y] -= 1`
subtracts 1 at the true-class entry of each row and
`dW = X.T.dot(softmax)` contracts over the batch index. -/
noncomputable def softmax_loss_vectorized {D C N : ℕ} [NeZero C]
    (W : Fin D → Fin C → ℝ) (X : Fin N → Fin D → ℝ) (y : Fin N → Fin C)
    (reg : ℝ) : ℝ × (Fin D → Fin C → ℝ) :=
  let loss : ℝ :=
    -(∑ i, Real.log (softmaxMat X W i (y i))) / (N : ℝ)
      + 0.5 * reg * ∑ k, ∑ j, W k j * W k j
  let shifted : Fin N → Fin C → ℝ := fun i j =>
    softmaxMat X W i j - if j = y i then 1 else 0
  let dW : Fin D → Fin C → ℝ := fun k j =>
    (∑ i, X i k * shifted i j) / (N : ℝ) + reg * W k j
  (loss, dW)

/-- The loss/gradient formula exactly as the specification words it
(spec §4.1/§4.2), with the softmax probabilities written directly as
`exp(score) / ∑ exp(score)` — no maximum subtraction: the loss is the mean
over samples of the negative log-probability of the true class plus
`0.5 · reg · ∑ W²`, and gradient column `j` accumulates `X[i]` scaled by
(probability − 1) for the true class and by the probability otherwise,
divided by `N`, plus `reg · W`. -/
noncomputable def softmaxLossSpec {D C N : ℕ}
    (W : Fin D → Fin C → ℝ) (X : Fin N → Fin D → ℝ) (y : Fin N → Fin C)
    (reg : ℝ) : ℝ × (Fin D → Fin C → ℝ) :=
  let prob : Fin N → Fin C → ℝ := fun i j =>
    Real.exp (scoresOf W (X i) j) / ∑ k, Real.exp (scoresOf W (X i) k)
  let loss : ℝ :=
    (∑ i, -Real.log (prob i (y i))) / (N : ℝ)
      + 0.5 * reg * ∑ k, ∑ j, W k j * W k j
  let dW : Fin D → Fin C → ℝ := fun k j =>
    (∑ i, (prob i j - if j = y i then 1 else 0) * X i k) / (N : ℝ)
      + reg * W k j
  (loss, dW)

/-! Helper lemmas about the shared per-row softmax. -/

lemma sumExp_pos {C : ℕ} [NeZero C] (s : Fin C → ℝ) :
    0 < ∑ k, Real.exp (s k) :=
  Finset.sum_pos (fun k _ => Real.exp_pos (s k)) Finset.univ_nonempty

/-- Dividing shifted exponentials by their shifted sum cancels the shift. -/
lemma shift_ratio {C : ℕ} [NeZero C] (s : Fin C → ℝ) (c : ℝ) (j : Fin C) :
    Real.exp (s j + c) / ∑ k, Real.exp (s k + c)
      = Real.exp (s j) / ∑ k, Real.exp (s k) := by
  have h : ∀ k : Fin C, Real.exp (s k + c) = Real.exp (s k) * Real.exp c :=
    fun k => Real.exp_add _ _
  simp only [h, ← Finset.sum_mul]
  exact mul_div_mul_right _ _ (Real.exp_ne_zero c)

/-- The max-subtracted softmax equals the plain ratio of exponentials. -/
lemma softmaxOf_eq_prob {C : ℕ} [NeZero C] (s : Fin C → ℝ) (j : Fin C) :
    softmaxOf s j = Real.exp (s j) / ∑ k, Real.exp (s k) := by
  have h := shift_ratio s (-(rowMax s)) j
  simpa [softmaxOf, sub_eq_add_neg] using h

/-- Softmax is invariant under adding a constant to every score. -/
lemma softmaxOf_add_const {C : ℕ} [NeZero C] (s : Fin C → ℝ) (c : ℝ) (j : Fin C) :
    softmaxOf (fun k => s k + c) j = softmaxOf s j := by
  rw [softmaxOf_eq_prob, softmaxOf_eq_prob]
  exact shift_ratio s c j

lemma prob_sum_one {C : ℕ} [NeZero C] (s : Fin C → ℝ) :
    ∑ j, Real.exp (s j) / ∑ k, Real.exp (s k) = 1 := by
  rw [← Finset.sum_div]
  exact div_self (ne_of_gt (sumExp_pos s))

/-- The rows of the vectorized score matrix are the naive per-sample scores. -/
lemma scoresMat_eq_scoresOf {D C N : ℕ} (X : Fin N → Fin D → ℝ)
    (W : Fin D → Fin C → ℝ) (i : Fin N) (j : Fin C) :
    scoresMat X W i j = scoresOf W (X i) j := rfl

/-- The naive implementation computes exactly the specification formula. -/
lemma softmax_loss_naive_eq_spec {D C N : ℕ} [NeZero C]
    (W : Fin D → Fin C → ℝ) (X : Fin N → Fin D → ℝ) (y : Fin N → Fin C)
    (reg : ℝ) :
    softmax_loss_naive W X y reg = softmaxLossSpec W X y reg := by
  unfold softmax_loss_naive softmaxLossSpec
  simp only [Prod.mk.injEq]
  constructor
  · simp only [softmaxOf_eq_prob]
  · funext k j
    congr 1
    congr 1
    refine Finset.sum_congr rfl fun i _ => ?_
    rw [softmaxOf_eq_prob]
    by_cases h : j = y i <;> simp [h]

/-- The vectorized implementation computes exactly the specification formula. -/
lemma softmax_loss_vectorized_eq_spec {D C N : ℕ} [NeZero C]
    (W : Fin D → Fin C → ℝ) (X : Fin N → Fin D → ℝ) (y : Fin N → Fin C)
    (reg : ℝ) :
    softmax_loss_vectorized W X y reg = softmaxLossSpec W X y reg := by
  unfold softmax_loss_vectorized softmaxLossSpec softmaxMat
  simp only [Prod.mk.injEq]
  constructor
  · simp only [softmaxOf_eq_prob, scoresMat_eq_scoresOf, ← Finset.sum_neg_distrib,
      neg_div]
  · funext k j
    congr 1
    congr 1
    refine Finset.sum_congr rfl fun i _ => ?_
    rw [softmaxOf_eq_prob]
    simp only [scoresMat_eq_scoresOf]
    ring

/-- With `W = 0` and `reg = 0` the specification formula evaluates to loss
`log C` and gradient `fun k j => (∑ i, (1/C - [j = y i]) * X i k) / N`. -/
lemma spec_zeroW {D C N : ℕ} [NeZero C] [NeZero N]
    (X : Fin N → Fin D → ℝ) (y : Fin N → Fin C) :
    softmaxLossSpec (fun _ _ => (0:ℝ)) X y 0
      = (Real.log C,
         fun k j => (∑ i, (1 / C - if j = y i then 1 else 0) * X i k) / (N : ℝ)) := by
  have hs : ∀ i : Fin N, ∀ j : Fin C, scoresOf (fun _ _ => (0:ℝ)) (X i) j = 0 := by
    intro i j; simp [scoresOf]
  unfold softmaxLossSpec
  simp only [Prod.mk.injEq]
  constructor
  · simp only [hs, Real.exp_zero, mul_zero, zero_mul, add_zero]
    have hN : (N:ℝ) ≠ 0 := Nat.cast_ne_zero.mpr (NeZero.ne N)
    have h1 : ∑ k : Fin C, (1:ℝ) = (C:ℝ) := by simp
    rw [h1]
    have h2 : -Real.log (1 / (C:ℝ)) = Real.log C := by
      rw [one_div, Real.log_inv, neg_neg]
    simp only [h2, Finset.sum_const, Finset.card_univ, Fintype.card_fin,
      nsmul_eq_mul]
    field_simp
  · funext k j
    simp only [hs, Real.exp_zero, zero_mul, add_zero]
    congr 1
    refine Finset.sum_congr rfl fun i _ => ?_
    congr 2
    rw [Finset.sum_const, Finset.card_univ, Fintype.card_fin, nsmul_eq_mul,
      mul_one, one_div]

/-- Row sums of the specification gradient vanish when `reg = 0`. -/
lemma spec_grad_row_sum {D C N : ℕ} [NeZero C]
    (W : Fin D → Fin C → ℝ) (X : Fin N → Fin D → ℝ) (y : Fin N → Fin C)
    (k : Fin D) :
    ∑ j, (softmaxLossSpec W X y 0).2 k j = 0 := by
  unfold softmaxLossSpec
  simp only [zero_mul, add_zero, mul_zero]
  rw [← Finset.sum_div, Finset.sum_comm]
  have h : ∀ i : Fin N,
      ∑ j, (Real.exp (scoresOf W (X i) j) / (∑ l, Real.exp (scoresOf W (X i) l))
          - if j = y i then 1 else 0) * X i k = 0 := by
    intro i
    rw [← Finset.sum_mul]
    have h1 : ∑ j, (Real.exp (scoresOf W (X i) j)
        / (∑ l, Real.exp (scoresOf W (X i) l)) - if j = y i then 1 else 0) = 0 := by
      rw [Finset.sum_sub_distrib, prob_sum_one]
      simp
    rw [h1, zero_mul]
  simp only [h, Finset.sum_const, smul_zero, zero_div]

/-- C1: for every valid input (weights `W : D×C`, batch `X : N×D`, labels
`y` with values in `[0, C)`, any `reg`), `softmax_loss_naive` and
`softmax_loss_vectorized` return the same loss value and elementwise-equal
gradients (exactly, in the exact-real model of floating point). -/
theorem softmax_naive_eq_vectorized {D C N : ℕ}
    (W : Fin D → Fin (C+1) → ℝ) (X : Fin N → Fin D → ℝ)
    (y : Fin N → Fin (C+1)) (reg : ℝ) :
    softmax_loss_naive W X y reg = softmax_loss_vectorized W X y reg := by
  rw [softmax_loss_naive_eq_spec, softmax_loss_vectorized_eq_spec]

/-- C2: `softmax_loss_naive` returns the mean over samples of the negative
log softmax probability of the true class plus `0.5·reg·∑ W²`, and the
gradient of that loss: column `j` accumulates `X[i]` scaled by
(probability − true-class indicator), divided by `N`, plus `reg·W` —
i.e. exactly the specification formula `softmaxLossSpec`. -/
theorem softmax_loss_naive_correct {D C N : ℕ}
    (W : Fin D → Fin (C+1) → ℝ) (X : Fin N → Fin D → ℝ)
    (y : Fin N → Fin (C+1)) (reg : ℝ) :
    softmax_loss_naive W X y reg = softmaxLossSpec W X y reg :=
  softmax_loss_naive_eq_spec W X y reg

/-- C7: adding a constant to every entry of a score row changes neither the
computed softmax probabilities nor the per-sample cross-entropy loss; the
max-subtraction step changes nothing — both implementations equal the
shift-free specification formula `softmaxLossSpec` — and after the
subtraction every argument passed to `Real.exp` is ≤ 0. -/
theorem softmax_shift_invariance {D C N : ℕ} (s : Fin (C+1) → ℝ) (c : ℝ)
    (j t : Fin (C+1)) (W : Fin D → Fin (C+1) → ℝ) (X : Fin N → Fin D → ℝ)
    (y : Fin N → Fin (C+1)) (reg : ℝ) :
    softmaxOf (fun k => s k + c) j = softmaxOf s j
    ∧ -Real.log (softmaxOf (fun k => s k + c) t) = -Real.log (softmaxOf s t)
    ∧ softmax_loss_naive W X y reg = softmaxLossSpec W X y reg
    ∧ softmax_loss_vectorized W X y reg = softmaxLossSpec W X y reg
    ∧ s j - rowMax s ≤ 0 :=
  ⟨softmaxOf_add_const s c j,
   by rw [softmaxOf_add_const],
   softmax_loss_naive_eq_spec W X y reg,
   softmax_loss_vectorized_eq_spec W X y reg,
   sub_nonpos.mpr (by unfold rowMax; exact Finset.le_sup' s (Finset.mem_univ j))⟩

/-- C8 counterexample: at `D = 1`, `C = 2`, `N = 1`, `X = [[1]]`, `y = [0]`,
`W = 0`, `reg = 0`, the gradient entry `dW[0][0]` returned by
`softmax_loss_naive` is `-1/2`, not `0`: the claimed "zero matrix" gradient
is false. -/
theorem softmax_zero_weights_cex :
    (softmax_loss_naive ((fun _ _ => (0:ℝ)) : Fin 1 → Fin 2 → ℝ)
        ((fun _ _ => (1:ℝ)) : Fin 1 → Fin 1 → ℝ)
        ((fun _ => (0 : Fin 2)) : Fin 1 → Fin 2) 0).2 0 0 ≠ 0 := by
  have hs : scoresOf ((fun _ _ => (0:ℝ)) : Fin 1 → Fin 2 → ℝ) (fun _ => (1:ℝ))
      = fun _ => (0:ℝ) := by
    funext j; simp [scoresOf]
  have hp : softmaxOf (fun _ : Fin 2 => (0:ℝ)) 0 = 1/2 := by
    rw [softmaxOf_eq_prob]
    norm_num [Real.exp_zero, Fin.sum_univ_two]
  simp only [softmax_loss_naive, Fin.sum_univ_one]
  rw [hs, hp]
  norm_num

/-- C8 (amended): with `W` the zero matrix and `reg = 0`, both
implementations return loss exactly `log C`, and each returns the gradient
whose `(k, j)` entry is `(∑ i, (1/C − [j = y i]) · X i k) / N` — the uniform
softmax probability minus the one-hot label, contracted with `X` — which is
not the zero matrix in general. -/
theorem softmax_zero_weights {D C N : ℕ}
    (X : Fin (N+1) → Fin D → ℝ) (y : Fin (N+1) → Fin (C+1)) :
    (softmax_loss_naive (fun _ _ => (0:ℝ)) X y 0).1 = Real.log ((C:ℝ)+1)
    ∧ (softmax_loss_vectorized (fun _ _ => (0:ℝ)) X y 0).1 = Real.log ((C:ℝ)+1)
    ∧ (softmax_loss_naive (fun _ _ => (0:ℝ)) X y 0).2
        = (fun k j => (∑ i, (1/((C:ℝ)+1) - if j = y i then 1 else 0) * X i k)
            / ((N:ℝ)+1))
    ∧ (softmax_loss_vectorized (fun _ _ => (0:ℝ)) X y 0).2
        = (fun k j => (∑ i, (1/((C:ℝ)+1) - if j = y i then 1 else 0) * X i k)
            / ((N:ℝ)+1)) := by
  have h := @spec_zeroW D (C+1) (N+1) _ _ X y
  refine ⟨?_, ?_, ?_, ?_⟩ <;>
      simp only [softmax_loss_naive_eq_spec, softmax_loss_vectorized_eq_spec, h] <;>
      push_cast <;> rfl

/-- C9: with `reg = 0`, every feature row of the gradient returned by
`softmax_loss_naive` and by `softmax_loss_vectorized` sums to zero over the
class columns. -/
theorem softmax_grad_rows_sum_zero {D C N : ℕ}
    (W : Fin D → Fin (C+1) → ℝ) (X : Fin N → Fin D → ℝ)
    (y : Fin N → Fin (C+1)) (k : Fin D) :
    ∑ j, (softmax_loss_naive W X y 0).2 k j = 0
    ∧ ∑ j, (softmax_loss_vectorized W X y 0).2 k j = 0 := by
  constructor
  · rw [softmax_loss_naive_eq_spec]; exact spec_grad_row_sum W X y k
  · rw [softmax_loss_vectorized_eq_spec]; exact spec_grad_row_sum W X y k

end SoftmaxA1

namespace CNN

/-- The numpy dtype tags relevant to the constructor: `np.random.randn` and
`np.zeros` produce float64 arrays, the `dtype` argument (default
`np.float32`) is what every parameter is cast to. -/
inductive DType where
  | float32
  | float64
deriving DecidableEq

/-- A numpy array as the constructor handles it: a shape, a dtype tag and
(exact-real) entries indexed by flat position. -/
structure NPArray where
  shape : List ℕ
  dtype : DType
  data : ℕ → ℝ

/-- Modelled from the spec: `ndarray.astype(dtype)` casts an array to the
given "numeric precision" (spec §4.3); the entry values are modelled
unchanged because the embedding works with exact reals. -/
def NPArray.astype (a : NPArray) (d : DType) : NPArray :=
  { a with dtype := d }

/-- Embeds `ThreeLayerConvNet.__init__` (`cnn.py`, lines 37–67): builds the
parameter dictionary (modelled as an insertion-ordered association list)
with keys "W1", "b1", "W2", "b2", "W3", "b3": Gaussian weights scaled by
`weight_scale` — the random draws of `np.random.randn` are supplied by the
noise sources `g1`, `g2`, `g3` — and zero biases, with
`W2` of shape `(int(H * W / 4) * num_filters, hidden_dim)`; finally the loop
`for k, v in self.params.items()` casts every parameter to `dtype`. -/
def threeLayerConvNet_init (input_dim : ℕ × ℕ × ℕ)
    (num_filters filter_size hidden_dim num_classes : ℕ)
    (weight_scale : ℝ) (dtype : DType) (g1 g2 g3 : ℕ → ℝ) :
    List (String × NPArray) :=
  let C := input_dim.1
  let H := input_dim.2.1
  let W := input_dim.2.2
  let params : List (String × NPArray) :=
    [("W1", ⟨[num_filters, C, filter_size, filter_size], DType.float64,
        fun i => weight_scale * g1 i⟩),
     ("b1", ⟨[num_filters], DType.float64, fun _ => 0⟩),
     ("W2", ⟨[H * W / 4 * num_filters, hidden_dim], DType.float64,
        fun i => weight_scale * g2 i⟩),
     ("b2", ⟨[hidden_dim], DType.float64, fun _ => 0⟩),
     ("W3", ⟨[hidden_dim, num_classes], DType.float64,
        fun i => weight_scale * g3 i⟩),
     ("b3", ⟨[num_classes], DType.float64, fun _ => 0⟩)]
  params.map fun kv => (kv.1, kv.2.astype dtype)

/-- The dictionary `{'stride': 1, 'pad': (filter_size - 1) // 2}` built in
`ThreeLayerConvNet.loss` (`cnn.py`, line 83). -/
structure ConvParam where
  stride : ℕ
  pad : ℕ
deriving DecidableEq

/-- The dictionary `{'pool_height': 2, 'pool_width': 2, 'stride': 2}` built
in `ThreeLayerConvNet.loss` (`cnn.py`, line 86). -/
structure PoolParam where
  pool_height : ℕ
  pool_width : ℕ
  stride : ℕ
deriving DecidableEq

/-- Embeds `conv_param = {'stride': 1, 'pad': (filter_size - 1) // 2}`
(`cnn.py`, line 83; `//` is floor division). -/
def convParamOf (filter_size : ℕ) : ConvParam :=
  ⟨1, (filter_size - 1) / 2⟩

/-- Modelled from the spec: the output spatial size of a convolution layer
with the conventional contract (the daseCV conv layer itself is an external
collaborator, spec §6): `1 + (size + 2·pad − filter_size) / stride`. -/
def convOutDim (size filter_size pad stride : ℕ) : ℕ :=
  1 + (size + 2 * pad - filter_size) / stride

/-- Modelled from the spec: the output spatial size of max pooling with the
conventional contract: `1 + (size − pool) / stride` ("2×2 max-pool with
stride 2", "the pooling layer halving each spatial dimension", spec §4.3). -/
def poolOutDim (size pool stride : ℕ) : ℕ :=
  1 + (size - pool) / stride

/-- Modelled from the spec: the flattened size of the 2×2 stride-2 max-pool
output on a spatially preserved `H × W` convolution output:
`num_filters · (pooled height) · (pooled width)`. -/
def flattenedPoolSize (num_filters H W : ℕ) : ℕ :=
  num_filters * poolOutDim H 2 2 * poolOutDim W 2 2

/-- Modelled from the spec: the generic layer primitives
(`conv_relu_pool_forward/backward` from `daseCV.layer_utils`,
`affine_forward/backward` and `relu_forward/backward` from `daseCV.layers` /
`fast_layers`) are "external collaborators consumed but out of scope for
this spec … treated as trusted library functions with the conventional
forward/backward-with-cache contract" (spec §6), so they are modelled as an
abstract family of functions with exactly those shapes.  `N` is the batch
size, `InputT` the type of the input batch, `P` the per-sample index type of
the pooled convolution output, `B1F` the index type of the conv bias `b1`
and `I1` the index type of the conv filter bank `W1`. -/
structure LayerLib (N : ℕ) (InputT P B1F I1 : Type) : Type 1 where
  ConvCache : Type
  AffCache : Type → ℕ → Type
  ReluCache : ℕ → Type
  DXT : Type
  conv_relu_pool_forward :
    InputT → (I1 → ℝ) → (B1F → ℝ) → ConvParam → PoolParam →
      (Fin N → P → ℝ) × ConvCache
  affine_forward : {ι : Type} → {M : ℕ} →
    (Fin N → ι → ℝ) → (ι → Fin M → ℝ) → (Fin M → ℝ) →
      (Fin N → Fin M → ℝ) × AffCache ι M
  relu_forward : {M : ℕ} →
    (Fin N → Fin M → ℝ) → (Fin N → Fin M → ℝ) × ReluCache M
  affine_backward : {ι : Type} → {M : ℕ} →
    (Fin N → Fin M → ℝ) → AffCache ι M →
      (Fin N → ι → ℝ) × (ι → Fin M → ℝ) × (Fin M → ℝ)
  relu_backward : {M : ℕ} →
    (Fin N → Fin M → ℝ) → ReluCache M → (Fin N → Fin M → ℝ)
  conv_relu_pool_backward :
    (Fin N → P → ℝ) → ConvCache → DXT × (I1 → ℝ) × (B1F → ℝ)

/-- A constructed `ThreeLayerConvNet` as its `loss` method reads it: the six
parameter tensors, the regularization strength `self.reg` and the filter
size (`filter_size = W1.shape[2]`, `cnn.py` line 82).  `HD` is the hidden
dimension and `K` the class count. -/
structure ThreeLayerConvNet (I1 B1F P : Type) (HD K : ℕ) where
  W1 : I1 → ℝ
  b1 : B1F → ℝ
  W2 : P → Fin HD → ℝ
  b2 : Fin HD → ℝ
  W3 : Fin HD → Fin K → ℝ
  b3 : Fin K → ℝ
  reg : ℝ
  filterSize : ℕ

/-- One gradient-dictionary value: the gradient tensor of one of the six
parameters (four distinct tensor shapes occur). -/
inductive GradVal (I1 B1F P : Type) (HD K : ℕ) where
  | gW1 : (I1 → ℝ) → GradVal I1 B1F P HD K
  | gb1 : (B1F → ℝ) → GradVal I1 B1F P HD K
  | gW2 : (P → Fin HD → ℝ) → GradVal I1 B1F P HD K
  | gb2 : (Fin HD → ℝ) → GradVal I1 B1F P HD K
  | gW3 : (Fin HD → Fin K → ℝ) → GradVal I1 B1F P HD K
  | gb3 : (Fin K → ℝ) → GradVal I1 B1F P HD K

/-- The result of `ThreeLayerConvNet.loss`: the raw `(N, num_classes)`
score tensor when `y` is `None`, otherwise the pair of scalar loss and
gradient dictionary (an insertion-ordered association list, like a Python
dict). -/
inductive LossResult (I1 B1F P : Type) (HD K N : ℕ) where
  | scores : (Fin N → Fin K → ℝ) → LossResult I1 B1F P HD K N
  | train : ℝ → List (String × GradVal I1 B1F P HD K) → LossResult I1 B1F P HD K N

/-- Modelled from the spec: the `daseCV.layers.softmax_loss` utility —
"apply softmax cross-entropy to the final scores to obtain (loss, initial
upstream gradient)" (spec §4.3), with cross-entropy the "negative
log-probability assigned to the true class" (glossary) averaged over the
batch, and the conventional upstream gradient
(softmax probability − one-hot) / N. -/
noncomputable def softmax_loss {N K : ℕ} (scores : Fin N → Fin K → ℝ)
    (y : Fin N → Fin K) : ℝ × (Fin N → Fin K → ℝ) :=
  ((∑ i, -Real.log (Real.exp (scores i (y i)) / ∑ j, Real.exp (scores i j)))
      / (N : ℝ),
   fun i j => (Real.exp (scores i j) / (∑ l, Real.exp (scores i l))
      - if j = y i then 1 else 0) / (N : ℝ))

section Pipeline

variable {N HD K : ℕ} {InputT P B1F I1 : Type}

/-- Embeds `out1, cache1 = conv_relu_pool_forward(X, W1, b1, conv_param, pool_param)`
(`cnn.py`, line 95), with `conv_param = convParamOf filter_size` (line 83)
and `pool_param = {'pool_height': 2, 'pool_width': 2, 'stride': 2}`
(line 86). -/
def out1 (L : LayerLib N InputT P B1F I1) (net : ThreeLayerConvNet I1 B1F P HD K)
    (X : InputT) : (Fin N → P → ℝ) × L.ConvCache :=
  L.conv_relu_pool_forward X net.W1 net.b1 (convParamOf net.filterSize) ⟨2, 2, 2⟩

/-- Embeds `out2, cache2 = affine_forward(out1, W2, b2)` (`cnn.py`, line 96). -/
def out2 (L : LayerLib N InputT P B1F I1) (net : ThreeLayerConvNet I1 B1F P HD K)
    (X : InputT) : (Fin N → Fin HD → ℝ) × L.AffCache P HD :=
  L.affine_forward (out1 L net X).1 net.W2 net.b2

/-- Embeds `out2_relu, cache2_relu = relu_forward(out2)` (`cnn.py`, line 97). -/
def out2_relu (L : LayerLib N InputT P B1F I1)
    (net : ThreeLayerConvNet I1 B1F P HD K) (X : InputT) :
    (Fin N → Fin HD → ℝ) × L.ReluCache HD :=
  L.relu_forward (out2 L net X).1

/-- Embeds `scores, cache3 = affine_forward(out2_relu, W3, b3)` (`cnn.py`, line 98). -/
def scores3 (L : LayerLib N InputT P B1F I1)
    (net : ThreeLayerConvNet I1 B1F P HD K) (X : InputT) :
    (Fin N → Fin K → ℝ) × L.AffCache (Fin HD) K :=
  L.affine_forward (out2_relu L net X).1 net.W3 net.b3

/-- The raw class-score tensor produced by the forward pipeline; its type
records the `(N, num_classes)` shape. -/
def forwardScores (L : LayerLib N InputT P B1F I1)
    (net : ThreeLayerConvNet I1 B1F P HD K) (X : InputT) :
    Fin N → Fin K → ℝ :=
  (scores3 L net X).1

/-- Embeds `loss, dout = softmax_loss(scores, y)` (`cnn.py`, line 118). -/
noncomputable def dout (L : LayerLib N InputT P B1F I1)
    (net : ThreeLayerConvNet I1 B1F P HD K) (X : InputT)
    (y : Fin N → Fin K) : ℝ × (Fin N → Fin K → ℝ) :=
  softmax_loss (forwardScores L net X) y

/-- Embeds `dout3, grads['W3'], grads['b3'] = affine_backward(dout, cache3)`
(`cnn.py`, line 122). -/
noncomputable def back3 (L : LayerLib N InputT P B1F I1)
    (net : ThreeLayerConvNet I1 B1F P HD K) (X : InputT)
    (y : Fin N → Fin K) :
    (Fin N → Fin HD → ℝ) × (Fin HD → Fin K → ℝ) × (Fin K → ℝ) :=
  L.affine_backward (dout L net X y).2 (scores3 L net X).2

/-- Embeds `dout2_relu = relu_backward(dout3, cache2_relu)` (`cnn.py`, line 123). -/
noncomputable def back2_relu (L : LayerLib N InputT P B1F I1)
    (net : ThreeLayerConvNet I1 B1F P HD K) (X : InputT)
    (y : Fin N → Fin K) : Fin N → Fin HD → ℝ :=
  L.relu_backward (back3 L net X y).1 (out2_relu L net X).2

/-- Embeds `dout2, grads['W2'], grads['b2'] = affine_backward(dout2_relu, cache2)`
(`cnn.py`, line 124). -/
noncomputable def back2 (L : LayerLib N InputT P B1F I1)
    (net : ThreeLayerConvNet I1 B1F P HD K) (X : InputT)
    (y : Fin N → Fin K) :
    (Fin N → P → ℝ) × (P → Fin HD → ℝ) × (Fin HD → ℝ) :=
  L.affine_backward (back2_relu L net X y) (out2 L net X).2

/-- Embeds `dout1, grads['W1'], grads['b1'] = conv_relu_pool_backward(dout2, cache1)`
(`cnn.py`, line 125). -/
noncomputable def back1 (L : LayerLib N InputT P B1F I1)
    (net : ThreeLayerConvNet I1 B1F P HD K) (X : InputT)
    (y : Fin N → Fin K) : L.DXT × (I1 → ℝ) × (B1F → ℝ) :=
  L.conv_relu_pool_backward (back2 L net X y).1 (out1 L net X).2

/-- Embeds `ThreeLayerConvNet.loss(X, y=None)` (`cnn.py`, lines 70–136): run the
forward pipeline; with no labels return the raw scores; with labels compute
the softmax cross-entropy loss, add
`self.reg * 0.5 * (np.sum(W1**2) + np.sum(W2**2) + np.sum(W3**2))`, run the
backward pass in reverse order, and add `self.reg * W` to each weight
gradient (the dict insertion order is W3, b3, W2, b2, W1, b1; lines 122–129
are merged into the final value each dict entry holds when the method
returns). -/
noncomputable def ThreeLayerConvNet.loss [Fintype I1] [Fintype P]
    (net : ThreeLayerConvNet I1 B1F P HD K) (L : LayerLib N InputT P B1F I1)
    (X : InputT) : Option (Fin N → Fin K) → LossResult I1 B1F P HD K N
  | none => .scores (forwardScores L net X)
  | some y =>
    let ld := softmax_loss (forwardScores L net X) y
    let loss := ld.1 + net.reg * 0.5 *
      ((∑ i, net.W1 i ^ 2) + (∑ p, ∑ h, net.W2 p h ^ 2)
        + (∑ h, ∑ j, net.W3 h j ^ 2))
    let b3r := L.affine_backward ld.2 (scores3 L net X).2
    let r2 := L.relu_backward b3r.1 (out2_relu L net X).2
    let b2r := L.affine_backward r2 (out2 L net X).2
    let b1r := L.conv_relu_pool_backward b2r.1 (out1 L net X).2
    .train loss
      [("W3", .gW3 fun a b => b3r.2.1 a b + net.reg * net.W3 a b),
       ("b3", .gb3 b3r.2.2),
       ("W2", .gW2 fun p h => b2r.2.1 p h + net.reg * net.W2 p h),
       ("b2", .gb2 b2r.2.2),
       ("W1", .gW1 fun i => b1r.2.1 i + net.reg * net.W1 i),
       ("b1", .gb1 b1r.2.2)]

/-- The gradient dictionary `ThreeLayerConvNet.loss` returns, described the
way the claim does: each weight entry is the corresponding backward-pass
output with `reg` times the weight tensor added, each bias entry is the
backward-pass output untouched. -/
noncomputable def gradsDict (L : LayerLib N InputT P B1F I1)
    (net : ThreeLayerConvNet I1 B1F P HD K) (X : InputT)
    (y : Fin N → Fin K) : List (String × GradVal I1 B1F P HD K) :=
  [("W3", .gW3 fun a b => (back3 L net X y).2.1 a b + net.reg * net.W3 a b),
   ("b3", .gb3 (back3 L net X y).2.2),
   ("W2", .gW2 fun p h => (back2 L net X y).2.1 p h + net.reg * net.W2 p h),
   ("b2", .gb2 (back2 L net X y).2.2),
   ("W1", .gW1 fun i => (back1 L net X y).2.1 i + net.reg * net.W1 i),
   ("b1", .gb1 (back1 L net X y).2.2)]

/-- C3: for every layer library, network state and labelled batch, the
training call `loss(X, y)` returns the softmax cross-entropy of the forward
scores plus `0.5·reg·(∑W1² + ∑W2² + ∑W3²)`, together with the gradient
dictionary in which every weight gradient is the backward-pass output plus
`reg` times the weight tensor and every bias gradient is the backward-pass
output with no regularization term; the key set of that dictionary is
exactly the key set of the parameter dictionary built by the constructor. -/
theorem convnet_loss_train_correct [Fintype I1] [Fintype P] {N HD K : ℕ}
    {InputT : Type} {B1F : Type}
    (net : ThreeLayerConvNet I1 B1F P HD K) (L : LayerLib N InputT P B1F I1)
    (X : InputT) (y : Fin N → Fin K) (idim : ℕ × ℕ × ℕ)
    (nf fs hd nc : ℕ) (ws : ℝ) (dt : DType) (g1 g2 g3 : ℕ → ℝ) :
    net.loss L X (some y)
      = .train
          ((softmax_loss (forwardScores L net X) y).1
            + 0.5 * net.reg *
              ((∑ i, net.W1 i ^ 2) + (∑ p, ∑ h, net.W2 p h ^ 2)
                + (∑ h, ∑ j, net.W3 h j ^ 2)))
          (gradsDict L net X y)
    ∧ ((gradsDict L net X y).map Prod.fst).Perm
        ((threeLayerConvNet_init idim nf fs hd nc ws dt g1 g2 g3).map Prod.fst) := by
  constructor
  · show LossResult.train _ _ = _
    unfold gradsDict back3 back2 back2_relu back1 dout
    congr 2
    ring
  · show (["W3", "b3", "W2", "b2", "W1", "b1"] : List String).Perm
      ["W1", "b1", "W2", "b2", "W3", "b3"]
    decide

/-- C4: for every layer library, network state and input batch, the
inference call `loss(X)` with `y = None` returns exactly the raw class-score
tensor of the forward pipeline — the output of the final affine layer, with
no softmax applied — whose type `Fin N → Fin K → ℝ` records the
`(N, num_classes)` shape. -/
theorem convnet_inference_raw_scores [Fintype I1] [Fintype P] {N HD K : ℕ}
    {InputT : Type} {B1F : Type}
    (net : ThreeLayerConvNet I1 B1F P HD K) (L : LayerLib N InputT P B1F I1)
    (X : InputT) :
    net.loss L X none = .scores (forwardScores L net X)
    ∧ forwardScores L net X
        = (L.affine_forward (out2_relu L net X).1 net.W3 net.b3).1 :=
  ⟨rfl, rfl⟩

/-- C5 counterexample: the claim quantifies over every filter size, but for
the even filter size 2 the code's padding `(2 - 1) // 2 = 0` does not
preserve the spatial size: on input height 4 the convolution output height
is 3. -/
theorem convnet_conv_same_pad_cex :
    (convParamOf 2).stride = 1 ∧ (convParamOf 2).pad = (2 - 1) / 2
    ∧ convOutDim 4 2 (convParamOf 2).pad (convParamOf 2).stride ≠ 4 := by
  decide

/-- C5 (amended): for every ODD filter size, the convolution stage of
`ThreeLayerConvNet.loss` uses stride 1 and padding `(filter_size − 1) / 2`,
and with these choices the convolution output has the same (positive)
spatial height and width as its input. -/
theorem convnet_conv_same_pad (fs H : ℕ) (hfs : Odd fs) (hH : 0 < H) :
    (convParamOf fs).stride = 1 ∧ (convParamOf fs).pad = (fs - 1) / 2
    ∧ convOutDim H fs (convParamOf fs).pad (convParamOf fs).stride = H := by
  obtain ⟨m, rfl⟩ := hfs
  refine ⟨rfl, rfl, ?_⟩
  simp only [convParamOf, convOutDim]
  omega

/-- C5 witness: the theorem applied at the network's default filter size 7
and input height 32. -/
theorem convnet_conv_same_pad_witness :
    (convParamOf 7).stride = 1 ∧ (convParamOf 7).pad = (7 - 1) / 2
    ∧ convOutDim 32 7 (convParamOf 7).pad (convParamOf 7).stride = 32 :=
  convnet_conv_same_pad 7 32 (by decide) (by decide)

/-- C6 counterexample: at `input_dim = (3, 5, 5)`, `num_filters = 1`, the
constructed `W2` has first dimension `int(5·5/4)·1 = 6`, but the flattened
2×2 stride-2 max-pool output has size `1·2·2 = 4`: for odd spatial sizes
the claimed identity with `numFilters·(H/2)·(W/2)` fails. -/
theorem convnet_hidden_width_cex :
    ((threeLayerConvNet_init (3, 5, 5) 1 3 7 2 1 DType.float32
        (fun _ => 0) (fun _ => 0) (fun _ => 0)).map fun kv => (kv.1, kv.2.shape))
      = [("W1", [1, 3, 3, 3]), ("b1", [1]), ("W2", [6, 7]), ("b2", [7]),
         ("W3", [7, 2]), ("b3", [2])]
    ∧ flattenedPoolSize 1 5 5 ≠ 6 := by
  exact ⟨rfl, by decide⟩

/-- C6 (amended): for every constructor input with positive, EVEN spatial
sizes `H` and `W`, the first dimension of the constructed hidden-layer
weight `W2` is `(H·W/4)·num_filters`, and this equals the flattened size
`num_filters·(H/2)·(W/2)` of the 2×2 stride-2 max-pool output. -/
theorem convnet_hidden_width (Cc H W nf fs hd nc : ℕ) (ws : ℝ) (dt : DType)
    (g1 g2 g3 : ℕ → ℝ) (hH : 2 ∣ H) (hW : 2 ∣ W) (hHp : 0 < H) (hWp : 0 < W) :
    ((threeLayerConvNet_init (Cc, H, W) nf fs hd nc ws dt g1 g2 g3).map
        fun kv => (kv.1, kv.2.shape))
      = [("W1", [nf, Cc, fs, fs]), ("b1", [nf]), ("W2", [H * W / 4 * nf, hd]),
         ("b2", [hd]), ("W3", [hd, nc]), ("b3", [nc])]
    ∧ H * W / 4 * nf = flattenedPoolSize nf H W := by
  refine ⟨rfl, ?_⟩
  obtain ⟨a, rfl⟩ := hH
  obtain ⟨b, rfl⟩ := hW
  simp only [flattenedPoolSize, poolOutDim]
  have ha : 1 + (2 * a - 2) / 2 = a := by omega
  have hb : 1 + (2 * b - 2) / 2 = b := by omega
  rw [ha, hb]
  have h4 : 2 * a * (2 * b) = 4 * (a * b) := by ring
  rw [h4, Nat.mul_div_cancel_left _ (by norm_num : 0 < 4)]
  ring

/-- C6 witness: the theorem applied at the default input size 32×32 with 2
filters: `int(32·32/4)·2 = 512 = 2·16·16`. -/
theorem convnet_hidden_width_witness :
    ((threeLayerConvNet_init (3, 32, 32) 2 7 100 10 1 DType.float32
        (fun _ => 0) (fun _ => 0) (fun _ => 0)).map fun kv => (kv.1, kv.2.shape))
      = [("W1", [2, 3, 7, 7]), ("b1", [2]), ("W2", [32 * 32 / 4 * 2, 100]),
         ("b2", [100]), ("W3", [100, 10]), ("b3", [10])]
    ∧ 32 * 32 / 4 * 2 = flattenedPoolSize 2 32 32 :=
  convnet_hidden_width 3 32 32 2 7 100 10 1 DType.float32
    (fun _ => 0) (fun _ => 0) (fun _ => 0)
    ⟨16, rfl⟩ ⟨16, rfl⟩ (by decide) (by decide)

/-- C10: after the constructor returns, the parameter dictionary contains
exactly the six keys "W1", "b1", "W2", "b2", "W3", "b3" (in insertion
order), and every stored tensor carries the dtype passed to the constructor,
regardless of the (float64) dtype the initialization arithmetic produced. -/
theorem convnet_init_keys_dtype (idim : ℕ × ℕ × ℕ) (nf fs hd nc : ℕ)
    (ws : ℝ) (dt : DType) (g1 g2 g3 : ℕ → ℝ) :
    (threeLayerConvNet_init idim nf fs hd nc ws dt g1 g2 g3).map Prod.fst
      = ["W1", "b1", "W2", "b2", "W3", "b3"]
    ∧ ∀ kv ∈ threeLayerConvNet_init idim nf fs hd nc ws dt g1 g2 g3,
        kv.2.dtype = dt := by
  constructor
  · rfl
  · intro kv hkv
    simp only [threeLayerConvNet_init, List.map_cons, List.map_nil,
      List.mem_cons, List.not_mem_nil, or_false] at hkv
    rcases hkv with h | h | h | h | h | h <;> subst h <;> rfl

end Pipeline

end CNN
